import Mathlib

/-!
Shallow embedding of `internal/log/store.go` from the vsdlog repository.

The Go `store` wraps an `*os.File` with a `bufio.Writer` and a running
`size` counter.  We model the on-disk file and the write buffer as lists
of bytes (naturals; Go guarantees each is < 256, which only matters for
the 8-byte header, and the header bytes we produce are < 256 by
construction).  `size` is a `uint64`, so every update the Go code makes
to it is taken modulo 2^64.  Each call the store makes into the standard
library (a buffered write, a buffer flush, a positional file read, a
stat, a close) either fully succeeds or fails; we expose that
environment choice as an explicit `Bool` flag per underlying call, with
the failing call leaving the modelled buffer unchanged (one of the
behaviours `bufio` permits: the triggered flush drained nothing).  In
Go a buffered write can actually fail only when it triggers a flush,
i.e. when the data exceeds the free space of the 4096-byte `bufio`
buffer; the flags over-approximate where failure is available, which
only ever widens the quantification of the failure-conditioned
theorems — concrete failing traces exhibited below are chosen at
states where the modelled trace is exactly the `bufio` one.  `Read`'s
`make([]byte, N)` panics when the decoded length does not fit in a
non-negative `int`; that crash is modelled explicitly.  Errors are
opaque to the store, so the error type is `Unit`.

The `sync.Mutex` makes every exported method one atomic critical
section; accordingly each method is modelled as one atomic step on the
state.
-/

/-- `headerSizeBytes = 8` from the source. -/
def headerSizeBytes : Nat := 8

/-- The store state: the bytes materialized in the underlying file, the
bytes sitting in the `bufio.Writer`, the `size` counter (a `uint64`,
kept as a `Nat` that every update reduces mod `2^64`), and whether
`Close` has released the file handle. -/
structure Store where
  file : List Nat
  buf : List Nat
  size : Nat
  closed : Bool
  deriving Repr, DecidableEq

/-- `binary.BigEndian` encoding of a `uint64`: eight big-endian base-256
digits.  Encoding an arbitrary natural first truncates it to 64 bits,
exactly as the Go cast `uint64(len(record))` would. -/
def uint64BE (n : Nat) : List Nat :=
  [n / 2 ^ 56 % 256, n / 2 ^ 48 % 256, n / 2 ^ 40 % 256, n / 2 ^ 32 % 256,
   n / 2 ^ 24 % 256, n / 2 ^ 16 % 256, n / 2 ^ 8 % 256, n % 256]

/-- `binary.BigEndian.Uint64`: decode eight big-endian base-256 digits. -/
def beUint64 (bs : List Nat) : Nat :=
  bs.foldl (fun acc b => acc * 256 + b) 0

/-- The Go cast `int64(pos)` applied to a `uint64` value: values at or
above `2^63` reinterpret as negatives. -/
def toInt64 (n : Nat) : Int :=
  if n % 2 ^ 64 < 2 ^ 63 then ((n % 2 ^ 64 : Nat) : Int)
  else ((n % 2 ^ 64 : Nat) : Int) - 2 ^ 64

/-- `os.File.ReadAt` into a buffer of length `n` at offset `off`: a
strict positional read that errors unless all `n` bytes exist at a
non-negative offset (a short read reports `io.EOF`, a negative offset
`EINVAL`); a zero-length read always succeeds. -/
def fileReadAt (file : List Nat) (n : Nat) (off : Int) : Except Unit (List Nat) :=
  if n = 0 then Except.ok []
  else if 0 ≤ off ∧ off.toNat + n ≤ file.length then
    Except.ok ((file.drop off.toNat).take n)
  else Except.error ()

/-- `bufio.Writer.Flush` moving every buffered byte into the file.  A
flush of an empty buffer cannot fail; `flushOk` is whether the
underlying file write succeeds, and on failure we take the permitted
trace in which nothing was drained. -/
def Store.flushBuf (s : Store) (flushOk : Bool) : Except Unit Unit × Store :=
  if s.buf = [] then (Except.ok (), s)
  else if flushOk then (Except.ok (), { s with file := s.file ++ s.buf, buf := [] })
  else (Except.error (), s)

/-- `newStore`: stat the file for its on-disk length, set `size` to it,
allocate an empty write buffer.  If the stat fails no store is
created.  (`fi.Size()` is a non-negative `int64`, and `uint64` of it is
the length itself.) -/
def newStore (f : List Nat) (statOk : Bool) : Except Unit Store :=
  if statOk then Except.ok { file := f, buf := [], size := f.length, closed := false }
  else Except.error ()

/-- `(*store).Append`: capture `pos = size`, write the 8-byte big-endian
length header into the buffer (`hdrOk` is whether that buffered write
succeeds), then the payload (`payloadOk` likewise), then advance `size`
by `uint64(8 + len(record))` and return `(uint64(8+len(record)), pos)`.
Either failure returns the error before `size` is touched.

A `false` flag is meaningful only at states where the corresponding
`bufio` write must flush (the bytes exceed the free space of the
4096-byte buffer); elsewhere the Go write is an infallible copy and the
`false` flag is counterfactual — harmless, since every theorem below
that assumes failure holds a fortiori on the smaller set of real
failing states, and the concrete failing traces used are taken at
genuinely flush-triggering states (4096-byte buffer boundary). -/
def Store.Append (s : Store) (record : List Nat) (hdrOk payloadOk : Bool) :
    Except Unit (Nat × Nat) × Store :=
  let pos := s.size
  if hdrOk then
    let s1 := { s with buf := s.buf ++ uint64BE record.length }
    if payloadOk then
      let w := (headerSizeBytes + record.length) % 2 ^ 64
      (Except.ok (w, pos),
       { s1 with buf := s1.buf ++ record, size := (s.size + w) % 2 ^ 64 })
    else (Except.error (), s1)
  else (Except.error (), s)

/-- The observable outcome of `(*store).Read`: the payload bytes, an
error return, or a runtime crash — `make([]byte, N)` panics with
`makeslice: len out of range` when the decoded length `N` does not fit
in a non-negative `int`, i.e. when `N ≥ 2^63`.  (Lengths below `2^63`
that still exceed the platform's allocation limit are treated as
allocatable; that limit is platform-specific and not modelled.) -/
inductive ReadResult where
  | bytes (contents : List Nat)
  | err
  | crash
  deriving Repr, DecidableEq

/-- `(*store).Read`: flush the write buffer, read the 8-byte header at
`int64(pos)`, decode the record length `N`, allocate
`make([]byte, N)` — a panic, not an error return, when `N ≥ 2^63` —
then read `N` bytes at `int64(pos+8)` and return them.  Any failing
read step returns its error. -/
def Store.Read (s : Store) (pos : Nat) (flushOk : Bool) :
    ReadResult × Store :=
  match s.flushBuf flushOk with
  | (Except.error _, s1) => (ReadResult.err, s1)
  | (Except.ok _, s1) =>
    match fileReadAt s1.file headerSizeBytes (toInt64 pos) with
    | Except.error _ => (ReadResult.err, s1)
    | Except.ok header =>
      if 2 ^ 63 ≤ beUint64 header then (ReadResult.crash, s1)
      else
        match fileReadAt s1.file (beUint64 header) (toInt64 (pos + headerSizeBytes)) with
        | Except.error _ => (ReadResult.err, s1)
        | Except.ok contents => (ReadResult.bytes contents, s1)

/-- `(*store).ReadAt`: flush the write buffer, then a strict positional
read of `n` bytes at offset `off` straight from the file. -/
def Store.ReadAt (s : Store) (n : Nat) (off : Int) (flushOk : Bool) :
    Except Unit (List Nat) × Store :=
  match s.flushBuf flushOk with
  | (Except.error e, s1) => (Except.error e, s1)
  | (Except.ok _, s1) =>
    match fileReadAt s1.file n off with
    | Except.error e => (Except.error e, s1)
    | Except.ok bytes => (Except.ok bytes, s1)

/-- `(*store).Close`: flush the write buffer; if the flush fails return
its error without closing, otherwise close the file handle (`closeOk`
is whether `os.File.Close` succeeds). -/
def Store.Close (s : Store) (flushOk closeOk : Bool) : Except Unit Unit × Store :=
  match s.flushBuf flushOk with
  | (Except.error e, s1) => (Except.error e, s1)
  | (Except.ok _, s1) =>
    if closeOk then (Except.ok (), { s1 with closed := true })
    else (Except.error (), { s1 with closed := true })

/-- The spec's size bookkeeping invariant: `size` equals the bytes on
disk plus the bytes still sitting in the write buffer. -/
def sizeInv (s : Store) : Prop :=
  s.size = s.file.length + s.buf.length

instance (s : Store) : Decidable (sizeInv s) := by
  unfold sizeInv; infer_instance

/-- A store over an empty file, as `newStore` builds it. -/
def emptyStore : Store :=
  { file := [], buf := [], size := 0, closed := false }

/-- Run a sequence of (all-successful) appends, returning the final
state together with the list of returned positions, in order. -/
def Store.appendSeq (s : Store) : List (List Nat) → Store × List Nat
  | [] => (s, [])
  | r :: rs =>
    let a := s.Append r true true
    let rest := a.2.appendSeq rs
    (rest.1, s.size :: rest.2)

/-- Total framed size of a batch of records: `8 + len r` for each. -/
def sumw (rs : List (List Nat)) : Nat :=
  (rs.map (fun r => headerSizeBytes + r.length)).sum

/-- One public operation on the store, together with the behaviour of
the underlying IO calls it makes. -/
inductive Op where
  | append (record : List Nat) (hdrOk payloadOk : Bool)
  | read (pos : Nat) (flushOk : Bool)
  | readAt (n : Nat) (off : Int) (flushOk : Bool)
  | close (flushOk closeOk : Bool)

/-- The state transition of one public operation (each is atomic: it
holds the mutex for its whole duration). -/
def Store.step (s : Store) : Op → Store
  | Op.append r h p => (s.Append r h p).2
  | Op.read pos f => (s.Read pos f).2
  | Op.readAt n off f => (s.ReadAt n off f).2
  | Op.close f c => (s.Close f c).2

/-- Run a sequence of public operations. -/
def Store.run (s : Store) (ops : List Op) : Store :=
  ops.foldl Store.step s

/-- The framed bytes an operation can add to `size`: `8 + len r` for an
append, `0` for everything else. -/
def opw : Op → Nat
  | Op.append r _ _ => headerSizeBytes + r.length
  | _ => 0

/-- Total possible `size` growth over a sequence of operations. -/
def opsw (ops : List Op) : Nat :=
  (ops.map opw).sum

/-! ## Helper lemmas -/

theorem uint64BE_length (n : Nat) : (uint64BE n).length = 8 := rfl

theorem beUint64_uint64BE (n : Nat) : beUint64 (uint64BE n) = n % 2 ^ 64 := by
  simp only [uint64BE, beUint64, List.foldl]
  omega

theorem toInt64_small {n : Nat} (h : n < 2 ^ 63) : toInt64 n = (n : Int) := by
  have h64 : n % 2 ^ 64 = n := Nat.mod_eq_of_lt (by omega)
  rw [toInt64, h64, if_pos h]

theorem flushBuf_true (s : Store) :
    s.flushBuf true = (Except.ok (), { s with file := s.file ++ s.buf, buf := [] }) := by
  cases s with
  | mk file buf size closed =>
    cases buf <;> simp [Store.flushBuf]

theorem append_ok (s : Store) (r : List Nat) :
    s.Append r true true =
      (Except.ok ((headerSizeBytes + r.length) % 2 ^ 64, s.size),
       { s with buf := (s.buf ++ uint64BE r.length) ++ r,
                size := (s.size + (headerSizeBytes + r.length) % 2 ^ 64) % 2 ^ 64 }) := rfl

theorem read_append (s : Store) (r : List Nat) (hinv : sizeInv s)
    (hfit : s.size + headerSizeBytes + r.length < 2 ^ 63) :
    ((s.Append r true true).2.Read s.size true).1 = ReadResult.bytes r := by
  have hfit8 : s.size + 8 + r.length < 2 ^ 63 := by
    simpa [headerSizeBytes] using hfit
  have hlen : r.length < 2 ^ 63 := by omega
  have hpos : s.size < 2 ^ 63 := by omega
  have hinv' : s.size = s.file.length + s.buf.length := hinv
  have hplen : (s.file ++ s.buf).length = s.size := by
    rw [List.length_append]; omega
  have hgrp : s.file ++ ((s.buf ++ uint64BE r.length) ++ r)
      = (s.file ++ s.buf) ++ (uint64BE r.length ++ r) := by
    simp [List.append_assoc]
  have hgrp2 : s.file ++ ((s.buf ++ uint64BE r.length) ++ r)
      = ((s.file ++ s.buf) ++ uint64BE r.length) ++ r := by
    simp [List.append_assoc]
  have hplen2 : ((s.file ++ s.buf) ++ uint64BE r.length).length = s.size + 8 := by
    rw [List.length_append, hplen, uint64BE_length]
  have h1 : fileReadAt (s.file ++ ((s.buf ++ uint64BE r.length) ++ r))
      headerSizeBytes (toInt64 s.size) = Except.ok (uint64BE r.length) := by
    rw [hgrp, fileReadAt, toInt64_small hpos]
    have hc : (0 : Int) ≤ (s.size : Int) ∧
        ((s.size : Int)).toNat + headerSizeBytes
          ≤ ((s.file ++ s.buf) ++ (uint64BE r.length ++ r)).length := by
      refine ⟨by positivity, ?_⟩
      simp [List.length_append, uint64BE_length, headerSizeBytes]
      omega
    rw [if_neg (by simp [headerSizeBytes]), if_pos hc]
    have : ((s.size : Int)).toNat = s.size := Int.toNat_natCast s.size
    rw [this, List.drop_left' hplen]
    exact congrArg Except.ok (List.take_left' (uint64BE_length r.length))
  have h2 : beUint64 (uint64BE r.length) = r.length := by
    rw [beUint64_uint64BE, Nat.mod_eq_of_lt (by omega)]
  have h3 : fileReadAt (s.file ++ ((s.buf ++ uint64BE r.length) ++ r))
      r.length (toInt64 (s.size + headerSizeBytes)) = Except.ok r := by
    by_cases hr0 : r.length = 0
    · have : r = [] := List.length_eq_zero.mp hr0
      subst this
      simp [fileReadAt]
    · rw [hgrp2, fileReadAt, toInt64_small (by simp [headerSizeBytes]; omega)]
      have hc : (0 : Int) ≤ ((s.size + headerSizeBytes : Nat) : Int) ∧
          (((s.size + headerSizeBytes : Nat) : Int)).toNat + r.length
            ≤ (((s.file ++ s.buf) ++ uint64BE r.length) ++ r).length := by
        refine ⟨by positivity, ?_⟩
        simp only [List.length_append, uint64BE_length, headerSizeBytes]
        omega
      rw [if_neg hr0, if_pos hc]
      have ht : (((s.size + headerSizeBytes : Nat) : Int)).toNat = s.size + 8 := by
        simp only [headerSizeBytes]
        omega
      have hplen2' : ((s.file ++ s.buf) ++ uint64BE r.length).length = s.size + 8 :=
        hplen2
      rw [ht, List.drop_left' hplen2', List.take_length]
  rw [append_ok]
  simp only [Store.Read, flushBuf_true]
  simp only [h1, h2]
  rw [if_neg (by omega : ¬ 2 ^ 63 ≤ r.length)]
  simp only [h3]

theorem Read_state (s : Store) (pos : Nat) (fOk : Bool) :
    (s.Read pos fOk).2 = (s.flushBuf fOk).2 := by
  rcases h : s.flushBuf fOk with ⟨e, s1⟩
  cases e with
  | error e => simp [Store.Read, h]
  | ok v =>
    cases v
    rcases h1 : fileReadAt s1.file headerSizeBytes (toInt64 pos) with e1 | header
    · simp [Store.Read, h, h1]
    · by_cases hN : 2 ^ 63 ≤ beUint64 header
      · have hN9 : 9223372036854775808 ≤ beUint64 header := by omega
        simp [Store.Read, h, h1, hN9]
      · have hN9 : ¬ 9223372036854775808 ≤ beUint64 header := by omega
        rcases h2 : fileReadAt s1.file (beUint64 header)
            (toInt64 (pos + headerSizeBytes)) with e2 | contents
        · simp [Store.Read, h, h1, hN9, h2]
        · simp [Store.Read, h, h1, hN9, h2]

theorem ReadAt_state (s : Store) (n : Nat) (off : Int) (fOk : Bool) :
    (s.ReadAt n off fOk).2 = (s.flushBuf fOk).2 := by
  rcases h : s.flushBuf fOk with ⟨e, s1⟩
  cases e with
  | error e => simp [Store.ReadAt, h]
  | ok v =>
    cases v
    rcases h1 : fileReadAt s1.file n off with e1 | bytes
    · simp [Store.ReadAt, h, h1]
    · simp [Store.ReadAt, h, h1]

theorem Close_state (s : Store) (fOk cOk : Bool) :
    (s.Close fOk cOk).2.size = (s.flushBuf fOk).2.size ∧
    (s.Close fOk cOk).2.file = (s.flushBuf fOk).2.file ∧
    (s.Close fOk cOk).2.buf = (s.flushBuf fOk).2.buf := by
  rcases h : s.flushBuf fOk with ⟨e, s1⟩
  cases e with
  | error e => simp [Store.Close, h]
  | ok v =>
    cases v
    cases cOk <;> simp [Store.Close, h]

theorem flushBuf_size (s : Store) (fOk : Bool) :
    (s.flushBuf fOk).2.size = s.size := by
  cases s with
  | mk file buf size closed => cases buf <;> cases fOk <;> simp [Store.flushBuf]

theorem flushBuf_lensum (s : Store) (fOk : Bool) :
    (s.flushBuf fOk).2.file.length + (s.flushBuf fOk).2.buf.length
      = s.file.length + s.buf.length := by
  cases s with
  | mk file buf size closed => cases buf <;> cases fOk <;> simp [Store.flushBuf]

theorem append_size (s : Store) (r : List Nat) (hOk pOk : Bool) :
    (s.Append r hOk pOk).2.size =
      if hOk ∧ pOk then (s.size + (headerSizeBytes + r.length) % 2 ^ 64) % 2 ^ 64
      else s.size := by
  cases hOk <;> cases pOk <;> simp [Store.Append]

theorem appendSeq_spec (rs : List (List Nat)) : ∀ s : Store,
    s.size + sumw rs < 2 ^ 64 →
    (s.appendSeq rs).2.length = rs.length ∧
    (s.appendSeq rs).1.size = s.size + sumw rs ∧
    (s.appendSeq rs).2.head? = rs.head?.map (fun _ => s.size) ∧
    List.Chain' (fun a b => b.1 = a.1 + headerSizeBytes + a.2.length)
      ((s.appendSeq rs).2.zip rs) := by
  induction rs with
  | nil => intro s h; simp [Store.appendSeq, sumw]
  | cons r rs ih =>
    intro s h
    have hw : headerSizeBytes + r.length < 2 ^ 64 := by
      simp [sumw, headerSizeBytes] at h ⊢; omega
    have hsz : (s.Append r true true).2.size = s.size + headerSizeBytes + r.length := by
      rw [append_size]
      simp only [and_self, if_pos]
      rw [Nat.mod_eq_of_lt hw, Nat.mod_eq_of_lt (by simp [sumw, headerSizeBytes] at h ⊢; omega)]
      omega
    have h' : (s.Append r true true).2.size + sumw rs < 2 ^ 64 := by
      rw [hsz]; simp [sumw, headerSizeBytes] at h ⊢; omega
    obtain ⟨ihlen, ihsz, ihhd, ihch⟩ := ih (s.Append r true true).2 h'
    refine ⟨by simp [Store.appendSeq, ihlen], ?_, ?_, ?_⟩
    · show ((s.Append r true true).2.appendSeq rs).1.size = s.size + sumw (r :: rs)
      rw [ihsz, hsz]; simp [sumw]; omega
    · simp [Store.appendSeq]
    · show List.Chain' _ (((s.size :: ((s.Append r true true).2.appendSeq rs).2)).zip (r :: rs))
      cases rs with
      | nil =>
        simp [Store.appendSeq]
      | cons r' rs' =>
        have hcons : ∃ t, ((s.Append r true true).2.appendSeq (r' :: rs')).2
            = (s.Append r true true).2.size :: t := by
          exact ⟨_, rfl⟩
        obtain ⟨t, ht⟩ := hcons
        rw [ht]
        simp only [List.zip_cons_cons, List.chain'_cons]
        constructor
        · simpa using hsz
        · have := ihch
          rw [ht] at this
          simpa using this

theorem step_size_bounds (s : Store) (op : Op) (h : s.size + opw op < 2 ^ 64) :
    s.size ≤ (s.step op).size ∧ (s.step op).size ≤ s.size + opw op := by
  cases op with
  | append r hOk pOk =>
    simp only [opw] at h ⊢
    rw [Store.step, append_size]
    by_cases hf : hOk ∧ pOk
    · rw [if_pos hf]; omega
    · rw [if_neg hf]; omega
  | read pos fOk =>
    rw [Store.step, Read_state, flushBuf_size]; simp [opw]
  | readAt n off fOk =>
    rw [Store.step, ReadAt_state, flushBuf_size]; simp [opw]
  | close fOk cOk =>
    rw [Store.step, (Close_state s fOk cOk).1, flushBuf_size]; simp [opw]

theorem run_size_mono (ops : List Op) : ∀ s : Store,
    s.size + opsw ops < 2 ^ 64 →
    s.size ≤ (s.run ops).size ∧ (s.run ops).size ≤ s.size + opsw ops := by
  induction ops with
  | nil => intro s h; simp [Store.run, opsw]
  | cons op ops ih =>
    intro s h
    have hw : opsw (op :: ops) = opw op + opsw ops := by
      simp [opsw]
    rw [hw] at h
    obtain ⟨hlo, hhi⟩ := step_size_bounds s op (by omega)
    have hrun : s.run (op :: ops) = (s.step op).run ops := rfl
    obtain ⟨ihlo, ihhi⟩ := ih (s.step op) (by omega)
    rw [hrun, hw]
    exact ⟨le_trans hlo ihlo, by omega⟩

theorem fileReadAt_err (F : List Nat) (n : Nat) (off : Int) (hn : n ≠ 0)
    (h : off < 0 ∨ F.length < off.toNat + n) : fileReadAt F n off = Except.error () := by
  rw [fileReadAt, if_neg hn, if_neg]
  rintro ⟨h0, hle⟩
  rcases h with h | h <;> omega

theorem Read_err_of_hdr (s : Store) (pos : Nat)
    (h : fileReadAt (s.file ++ s.buf) headerSizeBytes (toInt64 pos) = Except.error ()) :
    (s.Read pos true).1 = ReadResult.err := by
  simp only [Store.Read, flushBuf_true]
  simp [h]

theorem Read_err_of_payload (s : Store) (pos : Nat) (header : List Nat)
    (h1 : fileReadAt (s.file ++ s.buf) headerSizeBytes (toInt64 pos) = Except.ok header)
    (hN : beUint64 header < 2 ^ 63)
    (h2 : fileReadAt (s.file ++ s.buf) (beUint64 header)
        (toInt64 (pos + headerSizeBytes)) = Except.error ()) :
    (s.Read pos true).1 = ReadResult.err := by
  have hN9 : ¬ 9223372036854775808 ≤ beUint64 header := by omega
  simp only [Store.Read, flushBuf_true]
  simp [h1, hN9, h2]

theorem Read_crash_of_hdr (s : Store) (pos : Nat) (header : List Nat)
    (h1 : fileReadAt (s.file ++ s.buf) headerSizeBytes (toInt64 pos) = Except.ok header)
    (hN : 2 ^ 63 ≤ beUint64 header) :
    (s.Read pos true).1 = ReadResult.crash := by
  have hN9 : 9223372036854775808 ≤ beUint64 header := by omega
  simp only [Store.Read, flushBuf_true]
  simp [h1, hN9]

theorem ReadAt_err (s : Store) (n : Nat) (off : Int)
    (h : fileReadAt (s.file ++ s.buf) n off = Except.error ()) :
    (s.ReadAt n off true).1 = Except.error () := by
  simp only [Store.ReadAt, flushBuf_true]
  simp [h]

/-! ## Claim theorems -/

/-- C1: for every byte sequence `r` (including the empty one), if
`Append r` on a store succeeds and returns position `pos`, then `Read
pos` returns exactly `r` (under the store's size invariant and the
physical bound that positions fit in an `int64`). -/
theorem C1_append_read_roundtrip (s : Store) (r : List Nat) (hOk pOk : Bool)
    (hinv : sizeInv s) (hfit : s.size + headerSizeBytes + r.length < 2 ^ 63)
    (w pos : Nat) (h : (s.Append r hOk pOk).1 = Except.ok (w, pos)) :
    ((s.Append r hOk pOk).2.Read pos true).1 = ReadResult.bytes r := by
  cases hOk with
  | false => simp [Store.Append] at h
  | true =>
    cases pOk with
    | false => simp [Store.Append] at h
    | true =>
      rw [append_ok] at h
      simp only [Except.ok.injEq, Prod.mk.injEq] at h
      obtain ⟨hw, hpos⟩ := h
      subst hpos
      exact read_append s r hinv hfit

/-- C1 witness: appending the byte `7` to an empty store returns
position `0`, and reading position `0` returns `[7]`. -/
theorem C1_witness :
    ((emptyStore.Append [7] true true).2.Read 0 true).1 = ReadResult.bytes [7] :=
  C1_append_read_roundtrip emptyStore [7] true true (by decide) (by decide) 9 0 rfl

/-- C2: a successful `Append r` returns `(8 + len r, pos)` with `pos`
the `size` before the call, and over a sequence of appends from an
empty store the first position is `0` and each next position is the
previous one plus `8 + len (previous record)`. -/
theorem C2_append_return_and_offset_arithmetic :
    (∀ (s : Store) (r : List Nat) (hOk pOk : Bool) (w pos : Nat),
        headerSizeBytes + r.length < 2 ^ 64 →
        (s.Append r hOk pOk).1 = Except.ok (w, pos) →
        w = headerSizeBytes + r.length ∧ pos = s.size) ∧
    (∀ rs : List (List Nat), sumw rs < 2 ^ 64 →
        (emptyStore.appendSeq rs).2.head? = rs.head?.map (fun _ => 0) ∧
        List.Chain' (fun a b => b.1 = a.1 + headerSizeBytes + a.2.length)
          ((emptyStore.appendSeq rs).2.zip rs)) := by
  constructor
  · intro s r hOk pOk w pos hlen h
    cases hOk with
    | false => simp [Store.Append] at h
    | true =>
      cases pOk with
      | false => simp [Store.Append] at h
      | true =>
        rw [append_ok] at h
        simp only [Except.ok.injEq, Prod.mk.injEq] at h
        obtain ⟨hw, hpos⟩ := h
        rw [← hw, Nat.mod_eq_of_lt hlen]
        exact ⟨rfl, hpos.symm⟩
  · intro rs h
    have hspec := appendSeq_spec rs emptyStore (by simpa [emptyStore] using h)
    exact ⟨hspec.2.2.1, hspec.2.2.2⟩

/-- C2 witness: appends of `[5]` then `[6,7]` from an empty store
return widths and positions `(9, 0)` and positions chained by
`p2 = p1 + 8 + 1`. -/
theorem C2_witness :
    (9 = headerSizeBytes + ([5] : List Nat).length ∧ 0 = emptyStore.size) ∧
    ((emptyStore.appendSeq [[5], [6, 7]]).2.head?
        = ([[5], [6, 7]] : List (List Nat)).head?.map (fun _ => 0) ∧
     List.Chain' (fun a b => b.1 = a.1 + headerSizeBytes + a.2.length)
       ((emptyStore.appendSeq [[5], [6, 7]]).2.zip [[5], [6, 7]])) :=
  ⟨C2_append_return_and_offset_arithmetic.1 emptyStore [5] true true 9 0
      (by decide) rfl,
   C2_append_return_and_offset_arithmetic.2 [[5], [6, 7]] (by decide)⟩

/-- C5: a failed `Append` (header write or payload write failing)
returns an error and leaves the `size` counter exactly as it was. -/
theorem C5_failed_append_leaves_size (s : Store) (r : List Nat) (hOk pOk : Bool)
    (h : (s.Append r hOk pOk).1 = Except.error ()) :
    (s.Append r hOk pOk).2.size = s.size := by
  cases hOk <;> cases pOk <;> simp [Store.Append] at h ⊢

/-- C5 witness: a header-write failure on an empty store leaves `size` at `0`. -/
theorem C5_witness : (emptyStore.Append [1] false false).2.size = emptyStore.size :=
  C5_failed_append_leaves_size emptyStore [1] false false rfl

/-- C3 (amended): the invariant `size = file length + buffered length`
is established by `newStore` and preserved by every successful
`Append` and by `Read`, `ReadAt` and `Close` whether they succeed or
fail; a failed `Append` is the one operation that can break it. -/
theorem C3_size_invariant_preserved :
    (∀ (f : List Nat) (s : Store), newStore f true = Except.ok s → sizeInv s) ∧
    (∀ (s : Store) (r : List Nat) (hOk pOk : Bool) (w pos : Nat),
        sizeInv s → s.size + headerSizeBytes + r.length < 2 ^ 64 →
        (s.Append r hOk pOk).1 = Except.ok (w, pos) →
        sizeInv (s.Append r hOk pOk).2) ∧
    (∀ (s : Store) (pos : Nat) (fOk : Bool), sizeInv s → sizeInv (s.Read pos fOk).2) ∧
    (∀ (s : Store) (n : Nat) (off : Int) (fOk : Bool),
        sizeInv s → sizeInv (s.ReadAt n off fOk).2) ∧
    (∀ (s : Store) (fOk cOk : Bool), sizeInv s → sizeInv (s.Close fOk cOk).2) := by
  refine ⟨?_, ?_, ?_, ?_, ?_⟩
  · intro f s h
    simp only [newStore, if_pos] at h
    cases h
    simp [sizeInv]
  · intro s r hOk pOk w pos hinv hfit h
    cases hOk with
    | false => simp [Store.Append] at h
    | true =>
      cases pOk with
      | false => simp [Store.Append] at h
      | true =>
        rw [sizeInv, append_size]
        have hbuf : (s.Append r true true).2.buf = (s.buf ++ uint64BE r.length) ++ r := by
          rw [append_ok]
        have hfile : (s.Append r true true).2.file = s.file := by
          rw [append_ok]
        rw [hbuf, hfile]
        simp only [List.length_append, uint64BE_length, and_self, if_pos]
        rw [sizeInv] at hinv
        simp only [headerSizeBytes] at hfit ⊢
        omega
  · intro s pos fOk hinv
    rw [sizeInv, Read_state, flushBuf_size, flushBuf_lensum]
    exact hinv
  · intro s n off fOk hinv
    rw [sizeInv, ReadAt_state, flushBuf_size, flushBuf_lensum]
    exact hinv
  · intro s fOk cOk hinv
    rw [sizeInv, (Close_state s fOk cOk).1, (Close_state s fOk cOk).2.1,
      (Close_state s fOk cOk).2.2, flushBuf_size, flushBuf_lensum]
    exact hinv

/-- C3 counterexample, at a genuinely realizable failing trace.  A
single append of a 4080-byte record buffers `8 + 4080 = 4088` bytes — a
pure copy into the fresh 4096-byte `bufio` buffer, no flush, nothing
can fail.  The next `Append [1]` copies its 8-byte header into the
exactly 8 free bytes left (again a pure copy, no flush), but the
1-byte payload no longer fits, so `bufio.Write` flushes the now-full
buffer; when that underlying write fails (e.g. disk full) having
drained nothing, `Append` returns the error with `size` untouched and
the 8 header bytes still buffered: `size = 4088` while
`file length + buffer length = 0 + 4096` — the invariant does not
survive this completed (failed) operation. -/
theorem C3_counterexample :
    sizeInv (emptyStore.Append (List.replicate 4080 0) true true).2 ∧
    ((emptyStore.Append (List.replicate 4080 0) true true).2.Append [1] true false).1
      = Except.error () ∧
    ¬ sizeInv ((emptyStore.Append (List.replicate 4080 0) true true).2.Append [1] true false).2 := by
  refine ⟨?_, rfl, ?_⟩
  · rw [sizeInv, append_ok]
    simp only [emptyStore, List.length_append, List.length_replicate, uint64BE_length,
      List.length_nil, headerSizeBytes]
    omega
  · have hY : ((emptyStore.Append (List.replicate 4080 0) true true).2.Append [1] true false).2
        = { (emptyStore.Append (List.replicate 4080 0) true true).2 with
            buf := (emptyStore.Append (List.replicate 4080 0) true true).2.buf ++ uint64BE 1 } :=
      rfl
    rw [sizeInv, hY, append_ok]
    simp only [emptyStore, List.length_append, List.length_replicate, uint64BE_length,
      List.length_nil, headerSizeBytes]
    omega

/-- C3 witness: the invariant holds after a successful append to the
empty store and after a `Read` on the empty store. -/
theorem C3_witness :
    sizeInv (emptyStore.Append [2, 3] true true).2 ∧
    sizeInv (emptyStore.Read 0 true).2 :=
  ⟨C3_size_invariant_preserved.2.1 emptyStore [2, 3] true true 10 0
      (by decide) (by decide) rfl,
   C3_size_invariant_preserved.2.2.1 emptyStore 0 true (by decide)⟩

/-- C4: `Read` and `ReadAt` unconditionally flush the write buffer
before the positional read (afterwards the buffer is empty and its
bytes are in the file), so a record that was appended but never
explicitly flushed is immediately readable via `Read`. -/
theorem C4_read_after_write_without_flush :
    (∀ (s : Store) (pos : Nat),
        (s.Read pos true).2.buf = [] ∧ (s.Read pos true).2.file = s.file ++ s.buf) ∧
    (∀ (s : Store) (n : Nat) (off : Int),
        (s.ReadAt n off true).2.buf = [] ∧
        (s.ReadAt n off true).2.file = s.file ++ s.buf) ∧
    (∀ (s : Store) (r : List Nat), sizeInv s →
        s.size + headerSizeBytes + r.length < 2 ^ 63 →
        (s.Append r true true).2.file = s.file ∧
        ((s.Append r true true).2.Read s.size true).1 = ReadResult.bytes r) := by
  refine ⟨?_, ?_, ?_⟩
  · intro s pos
    rw [Read_state, flushBuf_true]
    exact ⟨rfl, rfl⟩
  · intro s n off
    rw [ReadAt_state, flushBuf_true]
    exact ⟨rfl, rfl⟩
  · intro s r hinv hfit
    exact ⟨by rw [append_ok], read_append s r hinv hfit⟩

/-- C4 witness: with `[4]` appended (sitting only in the buffer), a
`Read` flushes the buffer and returns `[4]` without any explicit flush
call. -/
theorem C4_witness :
    (((emptyStore.Append [4] true true).2.Read 5 true).2.buf = [] ∧
     ((emptyStore.Append [4] true true).2.Read 5 true).2.file
        = (emptyStore.Append [4] true true).2.file ++ (emptyStore.Append [4] true true).2.buf) ∧
    ((emptyStore.Append [4] true true).2.file = emptyStore.file ∧
     ((emptyStore.Append [4] true true).2.Read emptyStore.size true).1 = ReadResult.bytes [4]) :=
  ⟨C4_read_after_write_without_flush.1 (emptyStore.Append [4] true true).2 5,
   C4_read_after_write_without_flush.2.2 emptyStore [4] (by decide) (by decide)⟩

/-- C6 (amended): a `Read` whose 8-byte header read extends past the
flushed file length errors; a `Read` whose decoded payload length `N`
is allocatable (`N < 2^63`) and whose payload read extends past the
file length errors; a `Read` whose garbage header decodes to
`N ≥ 2^63` panics in `make([]byte, N)` instead of returning an error;
and a `ReadAt` whose requested range cannot be satisfied in full
errors — never a silently short result. -/
theorem C6_out_of_range_reads_error :
    (∀ (s : Store) (pos : Nat),
        s.file.length + s.buf.length < pos % 2 ^ 64 + headerSizeBytes →
        (s.Read pos true).1 = ReadResult.err) ∧
    (∀ (s : Store) (pos N : Nat),
        pos + headerSizeBytes ≤ s.file.length + s.buf.length →
        pos + headerSizeBytes < 2 ^ 63 →
        beUint64 (((s.file ++ s.buf).drop pos).take headerSizeBytes) = N →
        0 < N → N < 2 ^ 63 →
        s.file.length + s.buf.length < pos + headerSizeBytes + N →
        (s.Read pos true).1 = ReadResult.err) ∧
    (∀ (s : Store) (pos N : Nat),
        pos + headerSizeBytes ≤ s.file.length + s.buf.length →
        pos + headerSizeBytes < 2 ^ 63 →
        beUint64 (((s.file ++ s.buf).drop pos).take headerSizeBytes) = N →
        2 ^ 63 ≤ N →
        (s.Read pos true).1 = ReadResult.crash) ∧
    (∀ (s : Store) (n : Nat) (off : Int),
        n ≠ 0 →
        (off < 0 ∨ ((s.file.length + s.buf.length : Nat) : Int) < off + n) →
        (s.ReadAt n off true).1 = Except.error ()) := by
  have hdrRead : ∀ (s : Store) (pos : Nat),
      pos + headerSizeBytes ≤ s.file.length + s.buf.length → pos < 2 ^ 63 →
      fileReadAt (s.file ++ s.buf) headerSizeBytes (toInt64 pos)
        = Except.ok (((s.file ++ s.buf).drop pos).take headerSizeBytes) := by
    intro s pos hle hp63
    rw [fileReadAt, if_neg (by simp [headerSizeBytes]), toInt64_small hp63,
      Int.toNat_natCast, if_pos]
    constructor
    · positivity
    · rw [List.length_append]
      exact hle
  refine ⟨?_, ?_, ?_, ?_⟩
  · intro s pos h
    apply Read_err_of_hdr
    apply fileReadAt_err _ _ _ (by simp [headerSizeBytes])
    by_cases hp : pos % 2 ^ 64 < 2 ^ 63
    · right
      rw [toInt64, if_pos hp, Int.toNat_natCast, List.length_append]
      simp only [headerSizeBytes] at h ⊢
      omega
    · left
      rw [toInt64, if_neg hp]
      have hlt : pos % 2 ^ 64 < 2 ^ 64 := Nat.mod_lt _ (by norm_num)
      omega
  · intro s pos N hle hlt hdr hNpos hN63 hbig
    have hp63 : pos < 2 ^ 63 := by simp only [headerSizeBytes] at hlt; omega
    apply Read_err_of_payload s pos (((s.file ++ s.buf).drop pos).take headerSizeBytes)
      (hdrRead s pos hle hp63) (by omega)
    rw [hdr]
    apply fileReadAt_err _ _ _ (by omega)
    right
    rw [toInt64_small hlt, Int.toNat_natCast, List.length_append]
    omega
  · intro s pos N hle hlt hdr hN63
    have hp63 : pos < 2 ^ 63 := by simp only [headerSizeBytes] at hlt; omega
    exact Read_crash_of_hdr s pos (((s.file ++ s.buf).drop pos).take headerSizeBytes)
      (hdrRead s pos hle hp63) (by omega)
  · intro s n off hn h
    apply ReadAt_err
    apply fileReadAt_err _ _ _ hn
    rcases h with h | h
    · left; exact h
    · right
      rw [List.length_append]
      omega

/-- C6 counterexample: the claim as stated is false — at a garbage
offset whose 8 header bytes are all `0xFF` the decoded length is
`2^64 - 1`, the payload read would extend far past end-of-file, and
the program does not return an error: it panics in
`make([]byte, enc.Uint64(header))` (`makeslice: len out of range`). -/
theorem C6_counterexample :
    ((⟨List.replicate 8 255, [], 8, false⟩ : Store).Read 0 true).1 = ReadResult.crash ∧
    ((⟨List.replicate 8 255, [], 8, false⟩ : Store).Read 0 true).1 ≠ ReadResult.err :=
  ⟨by decide, by decide⟩

/-- C6 witness: reading position 0 of an empty store errors; a header
promising 5 payload bytes over a 2-byte tail errors; a header of
`0x80...` bytes (decoding above `2^63`) crashes; a 1-byte `ReadAt` at
offset 0 of an empty store errors. -/
theorem C6_witness :
    (emptyStore.Read 0 true).1 = ReadResult.err ∧
    ((⟨uint64BE 5 ++ [1, 2], [], 10, false⟩ : Store).Read 0 true).1 = ReadResult.err ∧
    ((⟨List.replicate 8 128, [], 8, false⟩ : Store).Read 0 true).1 = ReadResult.crash ∧
    (emptyStore.ReadAt 1 0 true).1 = Except.error () :=
  ⟨C6_out_of_range_reads_error.1 emptyStore 0 (by decide),
   C6_out_of_range_reads_error.2.1 ⟨uint64BE 5 ++ [1, 2], [], 10, false⟩ 0 5
      (by decide) (by decide) (by decide) (by decide) (by decide) (by decide),
   C6_out_of_range_reads_error.2.2.1 ⟨List.replicate 8 128, [], 8, false⟩ 0
      (beUint64 (List.replicate 8 128)) (by decide) (by decide) (by decide) (by decide),
   C6_out_of_range_reads_error.2.2.2 emptyStore 1 0 (by decide) (Or.inr (by decide))⟩

/-- C7: `Close` flushes the write buffer and then closes the file
handle; if the flush fails, `Close` returns the flush error and the
store (in particular its `closed` flag) is untouched. -/
theorem C7_close_flush_then_close :
    (∀ (s : Store) (cOk : Bool), s.buf ≠ [] →
        (s.Close false cOk).1 = Except.error () ∧ (s.Close false cOk).2 = s) ∧
    (∀ (s : Store) (cOk : Bool),
        (s.Close true cOk).2.buf = [] ∧
        (s.Close true cOk).2.file = s.file ++ s.buf ∧
        (s.Close true cOk).2.closed = true ∧
        ((s.Close true cOk).1 = Except.ok () ↔ cOk = true)) := by
  constructor
  · intro s cOk hbuf
    have hf : s.flushBuf false = (Except.error (), s) := by
      rw [Store.flushBuf, if_neg hbuf]
      simp
    rw [Store.Close, hf]
    exact ⟨rfl, rfl⟩
  · intro s cOk
    cases cOk <;> simp [Store.Close, flushBuf_true]

/-- C7 witness: with `[4]` buffered, a failing flush makes `Close`
error and leaves the store unchanged; with a succeeding flush, `Close`
drains the buffer and marks the handle closed. -/
theorem C7_witness :
    (((emptyStore.Append [4] true true).2.Close false true).1 = Except.error () ∧
     ((emptyStore.Append [4] true true).2.Close false true).2
        = (emptyStore.Append [4] true true).2) ∧
    (((emptyStore.Append [4] true true).2.Close true true).2.buf = [] ∧
     ((emptyStore.Append [4] true true).2.Close true true).2.file
        = (emptyStore.Append [4] true true).2.file ++ (emptyStore.Append [4] true true).2.buf ∧
     ((emptyStore.Append [4] true true).2.Close true true).2.closed = true ∧
     (((emptyStore.Append [4] true true).2.Close true true).1 = Except.ok () ↔ true = true)) :=
  ⟨C7_close_flush_then_close.1 (emptyStore.Append [4] true true).2 true (by decide),
   C7_close_flush_then_close.2 (emptyStore.Append [4] true true).2 true⟩

/-- C8: `newStore` fails (creating no store) when the stat fails, and
otherwise sets `size` to the file's on-disk length; consequently after
closing a store and reopening its file, the next `Append` returns a
position equal to the prior total `size`, on the same preserved
bytes. -/
theorem C8_open_sets_size_and_resumes :
    (∀ f : List Nat, newStore f false = Except.error ()) ∧
    (∀ (f : List Nat) (s : Store), newStore f true = Except.ok s →
        s.size = f.length ∧ s.file = f ∧ s.buf = []) ∧
    (∀ (s s2 : Store) (r : List Nat), sizeInv s →
        newStore (s.Close true true).2.file true = Except.ok s2 →
        s2.file = s.file ++ s.buf ∧
        (s2.Append r true true).1
          = Except.ok ((headerSizeBytes + r.length) % 2 ^ 64, s.size)) := by
  refine ⟨?_, ?_, ?_⟩
  · intro f; rfl
  · intro f s h
    simp only [newStore, if_pos] at h
    cases h
    exact ⟨rfl, rfl, rfl⟩
  · intro s s2 r hinv h
    have hfile : (s.Close true true).2.file = s.file ++ s.buf :=
      ((Close_state s true true).2.1).trans (by rw [flushBuf_true])
    simp only [newStore, if_pos] at h
    cases h
    refine ⟨hfile, ?_⟩
    rw [append_ok]
    have : (s.Close true true).2.file.length = s.size := by
      rw [hfile, List.length_append, hinv]
    simp [this]

/-- C8 witness: a failed stat yields no store; a successful open of a
9-byte file sets `size = 9`; closing a store holding one buffered
record and reopening its file makes the next `Append` return position
`9`, the prior size. -/
theorem C8_witness :
    newStore (uint64BE 1 ++ [4]) false = Except.error () ∧
    ((⟨uint64BE 1 ++ [4], [], 9, false⟩ : Store).size = (uint64BE 1 ++ [4]).length ∧
     (⟨uint64BE 1 ++ [4], [], 9, false⟩ : Store).file = uint64BE 1 ++ [4] ∧
     (⟨uint64BE 1 ++ [4], [], 9, false⟩ : Store).buf = []) ∧
    ((⟨uint64BE 1 ++ [4], [], 9, false⟩ : Store).file
        = (emptyStore.Append [4] true true).2.file ++ (emptyStore.Append [4] true true).2.buf ∧
     ((⟨uint64BE 1 ++ [4], [], 9, false⟩ : Store).Append [6] true true).1
        = Except.ok ((headerSizeBytes + ([6] : List Nat).length) % 2 ^ 64,
            (emptyStore.Append [4] true true).2.size)) :=
  ⟨C8_open_sets_size_and_resumes.1 (uint64BE 1 ++ [4]),
   C8_open_sets_size_and_resumes.2.1 (uint64BE 1 ++ [4]) ⟨uint64BE 1 ++ [4], [], 9, false⟩ rfl,
   C8_open_sets_size_and_resumes.2.2 (emptyStore.Append [4] true true).2
      ⟨uint64BE 1 ++ [4], [], 9, false⟩ [6] (by decide) rfl⟩

/-- C9: each public operation is one atomic critical section (the
method bodies hold the single mutex for their whole duration), so
operations are totally ordered; for two appends whose critical
sections execute in the order A1 then A2, A2's position equals A1's
position plus A1's returned byte count. -/
theorem C9_append_ordering (s : Store) (r1 r2 : List Nat)
    (hfit : s.size + headerSizeBytes + r1.length < 2 ^ 64)
    (w1 p1 w2 p2 : Nat)
    (h1 : (s.Append r1 true true).1 = Except.ok (w1, p1))
    (h2 : ((s.Append r1 true true).2.Append r2 true true).1 = Except.ok (w2, p2)) :
    p2 = p1 + w1 := by
  rw [append_ok] at h1 h2
  simp only [Except.ok.injEq, Prod.mk.injEq] at h1 h2
  obtain ⟨hw1, hp1⟩ := h1
  obtain ⟨hw2, hp2⟩ := h2
  have e : (s.Append r1 true true).2.size
      = (s.size + (headerSizeBytes + r1.length) % 2 ^ 64) % 2 ^ 64 := by
    rw [append_size]
    simp
  omega

/-- C9 witness: appending `[1]` then `[2,3]` to the empty store gives
positions `0` and `9 = 0 + 9`. -/
theorem C9_witness : (9 : Nat) = 0 + 9 :=
  C9_append_ordering emptyStore [1] [2, 3] (by decide) 9 0 10 9 rfl rfl

/-- C10: `Read`, `ReadAt` and `Close` never change `size`; a failed
`Append` leaves it unchanged and a successful one grows it by exactly
`8 + len record`; hence `size` is non-decreasing across every sequence
of operations. -/
theorem C10_size_frame_and_monotone :
    (∀ (s : Store) (pos : Nat) (fOk : Bool), (s.Read pos fOk).2.size = s.size) ∧
    (∀ (s : Store) (n : Nat) (off : Int) (fOk : Bool),
        (s.ReadAt n off fOk).2.size = s.size) ∧
    (∀ (s : Store) (fOk cOk : Bool), (s.Close fOk cOk).2.size = s.size) ∧
    (∀ (s : Store) (r : List Nat) (hOk pOk : Bool),
        (s.Append r hOk pOk).1 = Except.error () →
        (s.Append r hOk pOk).2.size = s.size) ∧
    (∀ (s : Store) (r : List Nat) (hOk pOk : Bool) (w pos : Nat),
        s.size + headerSizeBytes + r.length < 2 ^ 64 →
        (s.Append r hOk pOk).1 = Except.ok (w, pos) →
        (s.Append r hOk pOk).2.size = s.size + headerSizeBytes + r.length) ∧
    (∀ (s : Store) (ops : List Op), s.size + opsw ops < 2 ^ 64 →
        s.size ≤ (s.run ops).size) := by
  refine ⟨?_, ?_, ?_, ?_, ?_, ?_⟩
  · intro s pos fOk
    rw [Read_state, flushBuf_size]
  · intro s n off fOk
    rw [ReadAt_state, flushBuf_size]
  · intro s fOk cOk
    rw [(Close_state s fOk cOk).1, flushBuf_size]
  · intro s r hOk pOk h
    cases hOk <;> cases pOk <;> simp [Store.Append] at h ⊢
  · intro s r hOk pOk w pos hfit h
    cases hOk with
    | false => simp [Store.Append] at h
    | true =>
      cases pOk with
      | false => simp [Store.Append] at h
      | true =>
        rw [append_size]
        simp only [and_self, if_pos]
        omega
  · intro s ops h
    exact (run_size_mono ops s h).1

/-- C10 witness: concrete frame facts on the empty store and
monotonicity over a one-append run. -/
theorem C10_witness :
    (emptyStore.Read 0 true).2.size = emptyStore.size ∧
    (emptyStore.ReadAt 1 0 true).2.size = emptyStore.size ∧
    (emptyStore.Close true true).2.size = emptyStore.size ∧
    (emptyStore.Append [1] false false).2.size = emptyStore.size ∧
    (emptyStore.Append [1] true true).2.size
      = emptyStore.size + headerSizeBytes + ([1] : List Nat).length ∧
    emptyStore.size ≤ (emptyStore.run [Op.append [1] true true]).size :=
  ⟨C10_size_frame_and_monotone.1 emptyStore 0 true,
   C10_size_frame_and_monotone.2.1 emptyStore 1 0 true,
   C10_size_frame_and_monotone.2.2.1 emptyStore true true,
   C10_size_frame_and_monotone.2.2.2.1 emptyStore [1] false false rfl,
   C10_size_frame_and_monotone.2.2.2.2.1 emptyStore [1] true true 9 0 (by decide) rfl,
   C10_size_frame_and_monotone.2.2.2.2.2 emptyStore [Op.append [1] true true] (by decide)⟩
